import Mathlib

/-!
# iclbench: inter-core latency benchmark

A shallow embedding of `src/main.cpp` and proofs about it.

* `uint64_t` / `size_t` values are natural numbers, with `% U64` written out at
  every operation that can wrap (`2 * iterations`, `current - 1`, `current += 2`).
* `double` values are rationals (exact arithmetic on ordinary, non-NaN values).
* The two processes created by `fork` are interleaved by an explicit schedule;
  the only shared variable they both write is `SharedData::target`, and the only
  access to it is the atomic compare-and-swap, so one iteration of the `while`
  loop of `testLoop` is one atomic step of the owning participant.
* System calls (`fork`, `waitpid`, `sched_setaffinity`, `sched_getaffinity`,
  `clock_gettime`) are inputs.
-/

namespace Iclbench

/-! ## Data model -/

/-- Modulus of `uint64_t` (and of `size_t` on the 64-bit targets of the program). -/
def U64 : Nat := 2 ^ 64

/-- The compiled-in iteration count: `constexpr size_t Iterations = 10 * 1000 * 1000`. -/
def Iterations : Nat := 10 * 1000 * 1000

/-- The two processes of a trial: the parent (`isParent`) is the primary, the forked
child the secondary. -/
inductive Participant where
  | primary
  | secondary
deriving DecidableEq, Repr

/-- The peer of a participant. -/
def Participant.other : Participant → Participant
  | .primary => .secondary
  | .secondary => .primary

/-- Line 86: `uint64_t start = isParent ? 1 : 2;`. -/
def Participant.start : Participant → Nat
  | .primary => 1
  | .secondary => 2

/-- The shared block: `struct SharedData`. -/
structure SharedData where
  target : Nat
  result1 : Rat
  result2 : Rat
deriving DecidableEq, Repr

/-- Line 74, `new (data) SharedData`: the object is constructed in place over whatever the
block held, every member taking its default member initialiser. -/
def SharedData.placementNew (_prior : SharedData) : SharedData :=
  { target := 0, result1 := 0, result2 := 0 }

/-! ## The hand-off loop of `testLoop` (lines 131-137) -/

/-- State of the two-participant system while the loops run: the shared counter, each
participant's local `current`, and a ghost log of the successful compare-and-swaps
(who wrote which value), oldest first. -/
structure LoopState where
  target : Nat
  current1 : Nat
  current2 : Nat
  log : List (Participant × Nat)
deriving DecidableEq, Repr

/-- The local variable `current` of a participant. -/
def LoopState.current (s : LoopState) : Participant → Nat
  | .primary => s.current1
  | .secondary => s.current2

/-- Line 132: `uint64_t end = 2 * iterations;` in 64-bit unsigned arithmetic. -/
def loopEnd (iterations : Nat) : Nat := (2 * iterations) % U64

/-- Line 131 in both processes, on a cell whose counter holds `target`:
`uint64_t current = start;`. -/
def initState (target : Nat) : LoopState :=
  { target := target
    current1 := Participant.start .primary
    current2 := Participant.start .secondary
    log := [] }

/-- The loop guard `current <= end`: the participant is still inside the loop. -/
def inLoop (iterations : Nat) (p : Participant) (s : LoopState) : Prop :=
  s.current p ≤ loopEnd iterations

instance (iterations : Nat) (p : Participant) (s : LoopState) :
    Decidable (inLoop iterations p s) := by
  unfold inLoop; infer_instance

/-- The value the compare-and-swap of line 134 expects: `current - 1` in `uint64_t`. -/
def casExpected (current : Nat) : Nat := (current + U64 - 1) % U64

/-- The pending compare-and-swap of a participant would succeed in this state. -/
def casSucceeds (p : Participant) (s : LoopState) : Prop :=
  s.target = casExpected (s.current p)

instance (p : Participant) (s : LoopState) : Decidable (casSucceeds p s) := by
  unfold casSucceeds; infer_instance

/-- The effect of a successful `__sync_bool_compare_and_swap(&data->target, current - 1,
current)` followed by `current += 2` (wrapping), recorded in the log. -/
def commit (p : Participant) (s : LoopState) : LoopState :=
  match p with
  | .primary =>
    { s with target := s.current1, current1 := (s.current1 + 2) % U64,
             log := s.log ++ [(.primary, s.current1)] }
  | .secondary =>
    { s with target := s.current2, current2 := (s.current2 + 2) % U64,
             log := s.log ++ [(.secondary, s.current2)] }

/-- One turn of participant `p`: if it is still inside `while (current <= end)` it runs
the loop body once (a failed compare-and-swap changes nothing); once it has left the loop
it takes no further part. -/
def step (iterations : Nat) (p : Participant) (s : LoopState) : LoopState :=
  if inLoop iterations p s then
    if casSucceeds p s then commit p s else s
  else s

/-- Run a schedule (who takes the next turn) from a given state. -/
def execFrom (iterations : Nat) (s : LoopState) (sched : List Participant) : LoopState :=
  sched.foldl (fun st p => step iterations p st) s

/-- The states reachable from a freshly reset cell (`target = 0`). -/
def exec (iterations : Nat) (sched : List Participant) : LoopState :=
  execFrom iterations (initState 0) sched

/-- Both participants have left the loop. -/
def bothDone (iterations : Nat) (s : LoopState) : Prop :=
  ¬ inLoop iterations .primary s ∧ ¬ inLoop iterations .secondary s

instance (iterations : Nat) (s : LoopState) : Decidable (bothDone iterations s) := by
  unfold bothDone; infer_instance

/-- The lockstep log `1, 2, 3, ..., t`: odd values by the primary, even ones by the
secondary. -/
def lockstep (t : Nat) : List (Participant × Nat) :=
  (List.range t).map fun i => (if i % 2 = 0 then Participant.primary else .secondary, i + 1)

/-- The unique state of the system in which the counter holds `t`. -/
def stateAt (t : Nat) : LoopState :=
  { target := t
    current1 := t + 1 + t % 2
    current2 := (t + 2 - t % 2) % U64
    log := lockstep t }

/-- The schedule of `rounds` rounds in which the primary and the secondary take turns. -/
def roundRobin : Nat → List Participant
  | 0 => []
  | rounds + 1 => .primary :: .secondary :: roundRobin rounds

/-- The first `k` turns of an infinite schedule. -/
def firstTurns (f : Nat → Participant) (k : Nat) : List Participant :=
  (List.range k).map f

/-- An infinite schedule is fair when each participant keeps getting turns. -/
def Fair (f : Nat → Participant) : Prop :=
  ∀ k p, ∃ j, k ≤ j ∧ f j = p

/-! ## Process outcomes and `setCPUAffinity` (lines 148-170) -/

/-- How a call ends in the calling process: it returns a value, or the process is
terminated by `exit(status)`. -/
inductive Outcome (α : Type) where
  | returns (v : α)
  | exits (status : Nat)
deriving DecidableEq, Repr

/-- A `cpu_set_t`, as the set of the CPU numbers whose bit is set. -/
abbrev CpuSet := Finset Nat

/-- Number of bits of a `cpu_set_t` (`<sched.h>`). -/
def CPU_SETSIZE : Nat := 1024

/-- `CPU_ZERO(&set)`. -/
def CPU_ZERO : CpuSet := ∅

/-- `CPU_SET(cpu, &set)`; a CPU number outside the mask is ignored by the library. -/
def CPU_SET (cpu : Nat) (set : CpuSet) : CpuSet :=
  if cpu < CPU_SETSIZE then insert cpu set else set

/-- What the two scheduler calls of `setCPUAffinity` do in one process: whether
`sched_setaffinity` succeeds, and what `sched_getaffinity` leaves in `setOut`
(`none` when it returns -1). -/
structure AffinityCalls where
  setOk : Bool
  getRes : Option CpuSet
deriving DecidableEq

/-- Lines 148-170, `void setCPUAffinity(int cpu)`. The callers pass loop indices of `main`,
which are non-negative. -/
def setCPUAffinity (cpu : Nat) (calls : AffinityCalls) : Outcome Unit :=
  let set := CPU_SET cpu CPU_ZERO
  if calls.setOk = false then .exits 1
  else
    match calls.getRes with
    | none => .exits 1
    | some setOut => if set ≠ setOut then .exits 1 else .returns ()

/-! ## Timing (lines 128-129, 139-145) and the stored latency (line 91) -/

/-- A reading of `clock_gettime(CLOCK_MONOTONIC, _)`: `struct timespec`. -/
structure Timespec where
  tv_sec : Int
  tv_nsec : Int
deriving DecidableEq, Repr

/-- Lines 141-145: `seconds * 1e9 + nanoseconds`, the value `testLoop` returns. -/
def elapsed (t0 t1 : Timespec) : Rat :=
  let seconds : Int := t1.tv_sec - t0.tv_sec
  let nanoseconds : Int := t1.tv_nsec - t0.tv_nsec
  (seconds : Rat) * 1000000000 + (nanoseconds : Rat)

/-- Line 91: `testLoop(sd, iterations, cpu, start) / double(iterations)`, the value a
participant stores in its result slot. -/
def storedLatency (iterations : Nat) (t0 t1 : Timespec) : Rat :=
  elapsed t0 t1 / (iterations : Rat)

/-- The time between two clock readings in seconds. -/
def elapsedSeconds (t0 t1 : Timespec) : Rat :=
  ((t1.tv_sec - t0.tv_sec : Int) : Rat) + ((t1.tv_nsec - t0.tv_nsec : Int) : Rat) / 1000000000

/-- Number of hand-offs performed so far: successful counter writes by either participant. -/
def handOffs (s : LoopState) : Nat := s.log.length

/-! ## `runOneTest` (lines 71-120) -/

/-- `std::min(a, b)`: `(b < a) ? b : a`. -/
def stdMin {α : Type} [LT α] [DecidableRel (fun (x y : α) => x < y)] (a b : α) : α :=
  if b < a then b else a

/-- What `waitpid(pid, &status, 0)` reports to the parent: the call failed (-1), the child
was terminated abnormally (`!WIFEXITED(status)`), or it exited with `WEXITSTATUS(status)`. -/
inductive WaitResult where
  | failed
  | signalled
  | exited (code : Nat)
deriving DecidableEq, Repr

/-- Lines 101-119: the parent after its own loop, given the outcome of `waitpid` and the
content of the shared block at that point. -/
def parentAfterLoop (w : WaitResult) (sd : SharedData) : Outcome Rat :=
  match w with
  | .failed => .exits 1
  | .signalled => .exits 1
  | .exited code =>
    if code ≠ 0 then .exits 1
    else .returns (stdMin sd.result1 sd.result2)

/-- What the operating system does for one process of a trial. -/
structure ProcessEnv where
  affinity : AffinityCalls
  t0 : Timespec
  t1 : Timespec

/-- What the operating system does during one trial: whether `fork` succeeds, the calls of
each process, whether `waitpid` itself succeeds, and whether the child ends by a signal
instead of its own exit. -/
structure TrialEnv where
  forkOk : Bool
  parent : ProcessEnv
  child : ProcessEnv
  waitpidOk : Bool
  childSignalled : Bool

/-- The call `waitpid(pid, &status, 0)` in the parent; `childExit` is the exit code of the
child if it has terminated. The call blocks (`none`) while the child runs. -/
def waitpid (env : TrialEnv) (childExit : Option Nat) : Option WaitResult :=
  if env.waitpidOk = false then some .failed
  else
    match childExit with
    | none => none
    | some code => some (if env.childSignalled then .signalled else .exited code)

/-- The function `runOneTest(fd, data, iterations, cpu1, cpu2)` as seen from the
orchestrating (parent) process, with the forked child run alongside it under the schedule
`sched`. `prior` is the content of the shared block on entry. The result is `none` when the
parent is still running after the schedule is used up (spinning in its loop, or blocked in
`waitpid`). A child whose `setCPUAffinity` exits never enters the loop, so its turns are
dropped. -/
def runOneTest (prior : SharedData) (iterations cpu1 cpu2 : Nat) (env : TrialEnv)
    (sched : List Participant) : Option (Outcome Rat) :=
  let sd := SharedData.placementNew prior
  if env.forkOk = false then some (.exits 1)
  else
    match setCPUAffinity cpu1 env.parent.affinity with
    | .exits status => some (.exits status)
    | .returns _ =>
      let childBound := setCPUAffinity cpu2 env.child.affinity
      let turns :=
        match childBound with
        | .returns _ => sched
        | .exits _ => sched.filter (fun p => p = .primary)
      let s := execFrom iterations (initState sd.target) turns
      if inLoop iterations .primary s then none
      else
        let sd1 := { sd with target := s.target,
                             result1 := storedLatency iterations env.parent.t0 env.parent.t1 }
        match childBound with
        | .exits status => (waitpid env (some status)).map fun w => parentAfterLoop w sd1
        | .returns _ =>
          if inLoop iterations .secondary s then
            (waitpid env none).map fun w => parentAfterLoop w sd1
          else
            let sd2 := { sd1 with result2 := storedLatency iterations env.child.t0 env.child.t1 }
            (waitpid env (some 0)).map fun w => parentAfterLoop w sd2

/-- A process whose affinity calls succeed and read back exactly `{cpu}`, and whose two
clock readings are `ns` nanoseconds apart. -/
def goodProcess (cpu : Nat) (ns : Int) : ProcessEnv :=
  { affinity := { setOk := true, getRes := some {cpu} }
    t0 := { tv_sec := 0, tv_nsec := 0 }
    t1 := { tv_sec := 0, tv_nsec := ns } }

/-- A trial on CPUs 0 and 1 in which every system call succeeds; the parent measures `ns1`
nanoseconds and the child `ns2`. -/
def quietTrial (ns1 ns2 : Int) : TrialEnv :=
  { forkOk := true
    parent := goodProcess 0 ns1
    child := goodProcess 1 ns2
    waitpidOk := true
    childSignalled := false }

/-- A trial on CPUs 0 and 1 in which the child's `sched_getaffinity` reads back `{0, 1}`
instead of the requested `{1}`; everything else succeeds. -/
def childMismatchTrial : TrialEnv :=
  { quietTrial 5 7 with
    child := { goodProcess 1 7 with affinity := { setOk := true, getRes := some {0, 1} } } }

/-- A trial on CPUs 0 and 1 in which the parent's `sched_getaffinity` reads back `{0, 1}`
instead of the requested `{0}`; everything else succeeds. -/
def parentMismatchTrial : TrialEnv :=
  { quietTrial 5 7 with
    parent := { goodProcess 0 5 with affinity := { setOk := true, getRes := some {0, 1} } } }

/-! ## The matrix driver: the loops of `main` (lines 57-66) -/

/-- State of the driver: the finished output lines, the cells printed on the current line,
and two ghost logs: the pairs `(i, j)` visited and the arguments
`(iterations, cpu1, cpu2)` of every call of `runOneTest`. -/
structure DriverState where
  rows : List (List Rat)
  line : List Rat
  visited : List (Nat × Nat)
  calls : List (Nat × Nat × Nat)
deriving DecidableEq, Repr

/-- Lines 58-64: `for (int j = 0; j < nprocs; j++)`, from the current value of `j`.
`run iterations cpu1 cpu2` is the value the call of `runOneTest` returns. The counters
range over CPU numbers, far below `INT_MAX`, and are natural numbers here. -/
def innerLoop (run : Nat → Nat → Nat → Rat) (nprocs i j : Nat) (st : DriverState) :
    DriverState :=
  if j < nprocs then
    let result : Rat := if i ≠ j then run Iterations i j else 0
    let calls := if i ≠ j then st.calls ++ [(Iterations, i, j)] else st.calls
    innerLoop run nprocs i (j + 1)
      { st with line := st.line ++ [result], visited := st.visited ++ [(i, j)], calls := calls }
  else st
termination_by nprocs - j

/-- Lines 57-66: `for (int i = 0; i < nprocs; i++)`, from the current value of `i`;
`printf("\n")` closes the line. -/
def outerLoop (run : Nat → Nat → Nat → Rat) (nprocs i : Nat) (st : DriverState) :
    DriverState :=
  if i < nprocs then
    let st1 := innerLoop run nprocs i 0 st
    outerLoop run nprocs (i + 1) { st1 with rows := st1.rows ++ [st1.line], line := [] }
  else st
termination_by nprocs - i

/-- The test loops of `main` on a machine with `nprocs` CPUs. -/
def mainLoop (run : Nat → Nat → Nat → Rat) (nprocs : Nat) : DriverState :=
  outerLoop run nprocs 0 { rows := [], line := [], visited := [], calls := [] }

/-- The cell of the emitted matrix at row `i`, column `j`. -/
def cell (st : DriverState) (i j : Nat) : Option Rat :=
  (st.rows[i]?).bind fun row => row[j]?

/-! ## Lemmas on the hand-off loop -/

theorem loopEnd_lt (n : Nat) : loopEnd n < U64 := by
  unfold loopEnd U64; exact Nat.mod_lt _ (by norm_num)

theorem loopEnd_even (n : Nat) : loopEnd n % 2 = 0 := by
  unfold loopEnd U64; omega

theorem lockstep_succ (t : Nat) :
    lockstep (t + 1) =
      lockstep t ++ [(if t % 2 = 0 then Participant.primary else .secondary, t + 1)] := by
  simp [lockstep, List.range_succ]

theorem initState_eq_stateAt : initState 0 = stateAt 0 := by
  simp [initState, stateAt, lockstep, Participant.start, U64]

/-- A turn of the primary from the state with counter `t`. -/
theorem step_primary_stateAt (n t : Nat) (ht : t ≤ loopEnd n) :
    step n .primary (stateAt t) =
      if t % 2 = 0 ∧ t + 1 ≤ loopEnd n then stateAt (t + 1) else stateAt t := by
  have he := loopEnd_even n
  have hl := loopEnd_lt n
  unfold U64 at hl
  rcases Nat.mod_two_eq_zero_or_one t with h | h
  · by_cases h1 : t + 1 ≤ loopEnd n
    · have h3 : (t + 1) % 2 = 1 := by omega
      have hin : inLoop n .primary (stateAt t) := by
        simp only [inLoop, stateAt, LoopState.current, h]; omega
      have hc : casSucceeds .primary (stateAt t) := by
        simp only [casSucceeds, casExpected, stateAt, LoopState.current, h, U64]; omega
      simp only [step, hin, hc, if_true, h, h1, and_self, commit]
      simp only [stateAt, h, h3, lockstep_succ, LoopState.mk.injEq, U64, if_true]
      refine ⟨trivial, by omega, by omega, trivial⟩
    · have hin : ¬ inLoop n .primary (stateAt t) := by
        simp only [inLoop, stateAt, LoopState.current, h]; omega
      simp [step, hin, h1]
  · have hc : ¬ casSucceeds .primary (stateAt t) := by
      simp only [casSucceeds, casExpected, stateAt, LoopState.current, h, U64]; omega
    simp [step, hc, h]

/-- A turn of the secondary from the state with counter `t`. -/
theorem step_secondary_stateAt (n t : Nat) (ht : t ≤ loopEnd n) :
    step n .secondary (stateAt t) = if t % 2 = 1 then stateAt (t + 1) else stateAt t := by
  have he := loopEnd_even n
  have hl := loopEnd_lt n
  unfold U64 at hl
  rcases Nat.mod_two_eq_zero_or_one t with h | h
  · have hc : ¬ casSucceeds .secondary (stateAt t) := by
      simp only [casSucceeds, casExpected, stateAt, LoopState.current, h, U64]; omega
    simp [step, hc, h]
  · have h3 : (t + 1) % 2 = 0 := by omega
    have hin : inLoop n .secondary (stateAt t) := by
      simp only [inLoop, stateAt, LoopState.current, h, U64]; omega
    have hc : casSucceeds .secondary (stateAt t) := by
      simp only [casSucceeds, casExpected, stateAt, LoopState.current, h, U64]; omega
    have hcur : (t + 2 - 1) % 2 ^ 64 = t + 1 := by omega
    simp only [step, hin, hc, if_true, h, commit]
    simp only [stateAt, h, h3, lockstep_succ, LoopState.mk.injEq, U64, hcur]
    refine ⟨trivial, trivial, by omega, by simp⟩

/-- Every turn leads from a lockstep state to a lockstep state, advancing the counter by
at most one and never beyond `end`. -/
theorem step_stateAt (n : Nat) (p : Participant) (t : Nat) (ht : t ≤ loopEnd n) :
    ∃ t2, t ≤ t2 ∧ t2 ≤ t + 1 ∧ t2 ≤ loopEnd n ∧ step n p (stateAt t) = stateAt t2 := by
  have he := loopEnd_even n
  cases p with
  | primary =>
    rw [step_primary_stateAt n t ht]
    split
    · exact ⟨t + 1, by omega, by omega, by omega, rfl⟩
    · exact ⟨t, by omega, by omega, ht, rfl⟩
  | secondary =>
    rw [step_secondary_stateAt n t ht]
    split
    · exact ⟨t + 1, by omega, by omega, by omega, rfl⟩
    · exact ⟨t, by omega, by omega, ht, rfl⟩

theorem execFrom_stateAt (n : Nat) (sched : List Participant) :
    ∀ t, t ≤ loopEnd n →
      ∃ t2, t ≤ t2 ∧ t2 ≤ loopEnd n ∧ execFrom n (stateAt t) sched = stateAt t2 := by
  induction sched with
  | nil => intro t ht; exact ⟨t, le_refl t, ht, rfl⟩
  | cons p rest ih =>
    intro t ht
    obtain ⟨t1, h1, _, h3, h4⟩ := step_stateAt n p t ht
    obtain ⟨t2, h5, h6, h7⟩ := ih t1 h3
    refine ⟨t2, by omega, h6, ?_⟩
    simp only [execFrom, List.foldl_cons] at h7 ⊢
    rw [h4]; exact h7

/-- The invariant of the hand-off loop: every reachable state is the lockstep state of its
counter, and the counter never exceeds `end`. -/
theorem exec_eq_stateAt (n : Nat) (sched : List Participant) :
    ∃ t, t ≤ loopEnd n ∧ exec n sched = stateAt t := by
  obtain ⟨t, _, h2, h3⟩ := execFrom_stateAt n sched 0 (Nat.zero_le _)
  exact ⟨t, h2, by rw [exec, initState_eq_stateAt]; exact h3⟩

theorem exec_append (n : Nat) (a b : List Participant) :
    exec n (a ++ b) = execFrom n (exec n a) b := by
  simp [exec, execFrom, List.foldl_append]

theorem lockstep_length (t : Nat) : (lockstep t).length = t := by
  simp [lockstep]

theorem lockstep_getElem? (t i : Nat) :
    (lockstep t)[i]? =
      if i < t then some (if i % 2 = 0 then Participant.primary else .secondary, i + 1)
      else none := by
  unfold lockstep
  rw [List.getElem?_map]
  by_cases h : i < t
  · simp [List.getElem?_range h, h]
  · simp [h, List.getElem?_eq_none (l := List.range t) (by simpa using h)]

theorem lockstep_values (t : Nat) : (lockstep t).map Prod.snd = List.range' 1 t := by
  unfold lockstep
  rw [List.map_map, List.range'_eq_map_range]
  simp [Function.comp_def, Nat.add_comm]

theorem casSucceeds_primary_stateAt (n t : Nat) (ht : t ≤ loopEnd n) :
    casSucceeds .primary (stateAt t) ↔ t % 2 = 0 := by
  have he := loopEnd_even n
  have hl := loopEnd_lt n
  unfold U64 at hl
  simp only [casSucceeds, casExpected, stateAt, LoopState.current, U64]
  omega

theorem casSucceeds_secondary_stateAt (n t : Nat) (ht : t ≤ loopEnd n) :
    casSucceeds .secondary (stateAt t) ↔ t % 2 = 1 := by
  have he := loopEnd_even n
  have hl := loopEnd_lt n
  unfold U64 at hl
  simp only [casSucceeds, casExpected, stateAt, LoopState.current, U64]
  omega

theorem inLoop_primary_stateAt (n t : Nat) :
    inLoop n .primary (stateAt t) ↔ t + 1 + t % 2 ≤ loopEnd n := by
  simp only [inLoop, stateAt, LoopState.current]

theorem inLoop_secondary_stateAt (n t : Nat) :
    inLoop n .secondary (stateAt t) ↔ (t + 2 - t % 2) % U64 ≤ loopEnd n := by
  simp only [inLoop, stateAt, LoopState.current]

/-- In a lockstep state both participants have left the loop exactly when the counter has
reached `end` and the secondary's last `current += 2` did not wrap. -/
theorem bothDone_stateAt (n t : Nat) (ht : t ≤ loopEnd n) :
    bothDone n (stateAt t) ↔ t = loopEnd n ∧ loopEnd n + 2 < U64 := by
  have he := loopEnd_even n
  have hl := loopEnd_lt n
  unfold U64 at hl
  simp only [bothDone, inLoop, stateAt, LoopState.current, U64]
  omega

theorem execFrom_cons (n : Nat) (s : LoopState) (p : Participant) (rest : List Participant) :
    execFrom n s (p :: rest) = execFrom n (step n p s) rest := rfl

/-- Once the counter has reached `end`, nothing changes any more. -/
theorem execFrom_stateAt_end (n : Nat) (sched : List Participant) :
    execFrom n (stateAt (loopEnd n)) sched = stateAt (loopEnd n) := by
  obtain ⟨t2, h1, h2, h3⟩ := execFrom_stateAt n sched (loopEnd n) (le_refl _)
  have : t2 = loopEnd n := by omega
  rw [h3, this]

theorem execFrom_roundRobin (n k : Nat) :
    ∀ j, 2 * j + 2 * k ≤ loopEnd n →
      execFrom n (stateAt (2 * j)) (roundRobin k) = stateAt (2 * j + 2 * k) := by
  induction k with
  | zero => intro j _; rfl
  | succ k ih =>
    intro j hj
    have h1 : step n .primary (stateAt (2 * j)) = stateAt (2 * j + 1) := by
      rw [step_primary_stateAt n (2 * j) (by omega), if_pos ⟨by omega, by omega⟩]
    have h2 : step n .secondary (stateAt (2 * j + 1)) = stateAt (2 * (j + 1)) := by
      rw [step_secondary_stateAt n (2 * j + 1) (by omega), if_pos (by omega)]
      congr 1
    rw [roundRobin, execFrom_cons, execFrom_cons, h1, h2, ih (j + 1) (by omega)]
    congr 1; omega

theorem exec_roundRobin (n k : Nat) (hk : 2 * k ≤ loopEnd n) :
    exec n (roundRobin k) = stateAt (2 * k) := by
  have := execFrom_roundRobin n k 0 (by omega)
  rw [exec, initState_eq_stateAt]
  simpa using this

theorem exec_firstTurns_succ (n : Nat) (f : Nat → Participant) (k : Nat) :
    exec n (firstTurns f (k + 1)) = step n (f k) (exec n (firstTurns f k)) := by
  simp [exec, execFrom, firstTurns, List.range_succ, List.foldl_append]

/-- Under a fair schedule the participant whose turn it is eventually gets to move. -/
theorem fair_advance (n : Nat) (f : Nat → Participant) (t : Nat) (ht : t + 1 ≤ loopEnd n)
    (p : Participant) (hp : p = if t % 2 = 0 then Participant.primary else .secondary) :
    ∀ d k, f (k + d) = p → exec n (firstTurns f k) = stateAt t →
      ∃ k2, exec n (firstTurns f k2) = stateAt (t + 1) := by
  have he := loopEnd_even n
  have hmove : ∀ k, f k = p → exec n (firstTurns f k) = stateAt t →
      exec n (firstTurns f (k + 1)) = stateAt (t + 1) := by
    intro k hf hs
    rw [exec_firstTurns_succ, hs, hf, hp]
    rcases Nat.mod_two_eq_zero_or_one t with h | h
    · rw [if_pos h, step_primary_stateAt n t (by omega), if_pos ⟨h, ht⟩]
    · rw [if_neg (by omega), step_secondary_stateAt n t (by omega), if_pos h]
  intro d
  induction d with
  | zero => intro k hf hs; exact ⟨k + 1, hmove k (by simpa using hf) hs⟩
  | succ d ih =>
    intro k hf hs
    by_cases hk : f k = p
    · exact ⟨k + 1, hmove k hk hs⟩
    · have hstay : exec n (firstTurns f (k + 1)) = stateAt t := by
        rw [exec_firstTurns_succ, hs]
        rcases Nat.mod_two_eq_zero_or_one t with h | h
        · have hq : f k = .secondary := by
            rw [hp, if_pos h] at hk
            cases hfk : f k with
            | primary => exact absurd hfk hk
            | secondary => rfl
          rw [hq, step_secondary_stateAt n t (by omega), if_neg (by omega)]
        · have hq : f k = .primary := by
            rw [hp, if_neg (by omega)] at hk
            cases hfk : f k with
            | primary => rfl
            | secondary => exact absurd hfk hk
          rw [hq, step_primary_stateAt n t (by omega), if_neg (by omega)]
      exact ih (k + 1) (by rw [← hf]; congr 1; omega) hstay

/-- Under a fair schedule the counter reaches `end`. -/
theorem fair_reaches_end (n : Nat) (f : Nat → Participant) (hf : Fair f) :
    ∀ m t k, t + m = loopEnd n → exec n (firstTurns f k) = stateAt t →
      ∃ k2, exec n (firstTurns f k2) = stateAt (loopEnd n) := by
  intro m
  induction m with
  | zero => intro t k ht hs; exact ⟨k, by rw [hs]; congr 1⟩
  | succ m ih =>
    intro t k ht hs
    obtain ⟨j, hj, hfj⟩ := hf k (if t % 2 = 0 then Participant.primary else .secondary)
    obtain ⟨k2, hk2⟩ := fair_advance n f t (by omega) _ rfl (j - k) k
      (by rw [← hfj]; congr 1; omega) hs
    exact ih (t + 1) k2 (by omega) hk2

/-! ## The hand-off protocol: termination, final counter, alternation -/

/-- C1 (as amended): for every iteration count `n >= 1` of type `size_t` other than
`2^63 - 1` and `2^64 - 1`, with `end`, `current - 1` and `current += 2` in wrapping 64-bit
arithmetic, the two participants started on a reset cell both terminate: in every reachable
state where some participant is still inside the loop, a still-looping participant's
compare-and-swap succeeds; the number of successful compare-and-swaps never exceeds `end`,
and when it reaches `end` both have left the loop; and under every fair schedule both leave
the loop after finitely many turns, after which nothing changes. -/
theorem handoff_terminates (n : Nat) (hn : 1 ≤ n) (hsz : n < 2 ^ 64)
    (h1 : n ≠ 2 ^ 63 - 1) (h2 : n ≠ 2 ^ 64 - 1) :
    (∀ sched, (∃ p, inLoop n p (exec n sched)) →
        ∃ p, inLoop n p (exec n sched) ∧ casSucceeds p (exec n sched)) ∧
    (∀ sched, handOffs (exec n sched) ≤ loopEnd n ∧
        (handOffs (exec n sched) = loopEnd n → bothDone n (exec n sched))) ∧
    (∀ f, Fair f → ∃ k, bothDone n (exec n (firstTurns f k)) ∧
        ∀ more, exec n (firstTurns f k ++ more) = exec n (firstTurns f k)) := by
  have he := loopEnd_even n
  have hl := loopEnd_lt n
  have hne : loopEnd n + 2 < U64 := by
    unfold loopEnd U64 at *
    omega
  refine ⟨?_, ?_, ?_⟩
  · intro sched
    obtain ⟨t, ht, hs⟩ := exec_eq_stateAt n sched
    rw [hs]
    rintro ⟨p, hp⟩
    have hlt : t < loopEnd n := by
      rcases Nat.lt_or_ge t (loopEnd n) with h | h
      · exact h
      · exfalso
        have hd := (bothDone_stateAt n t ht).2 ⟨by omega, hne⟩
        cases p with
        | primary => exact hd.1 hp
        | secondary => exact hd.2 hp
    rcases Nat.mod_two_eq_zero_or_one t with h | h
    · refine ⟨.primary, ?_, (casSucceeds_primary_stateAt n t ht).2 h⟩
      rw [inLoop_primary_stateAt]; omega
    · refine ⟨.secondary, ?_, (casSucceeds_secondary_stateAt n t ht).2 h⟩
      rw [inLoop_secondary_stateAt]; unfold U64 at *; omega
  · intro sched
    obtain ⟨t, ht, hs⟩ := exec_eq_stateAt n sched
    rw [hs]
    have hlen : handOffs (stateAt t) = t := by simp [handOffs, stateAt, lockstep_length]
    rw [hlen]
    exact ⟨ht, fun h => (bothDone_stateAt n t ht).2 ⟨h, hne⟩⟩
  · intro f hf
    obtain ⟨k, hk⟩ := fair_reaches_end n f hf (loopEnd n) 0 0 (by omega)
      (by rw [← initState_eq_stateAt]; rfl)
    refine ⟨k, ?_, ?_⟩
    · rw [hk]; exact (bothDone_stateAt n _ (le_refl _)).2 ⟨rfl, hne⟩
    · intro more
      rw [exec_append, hk, execFrom_stateAt_end]

/-- Witness of `handoff_terminates` at `n = 1`. -/
theorem handoff_terminates_witness :
    (∀ sched, (∃ p, inLoop 1 p (exec 1 sched)) →
        ∃ p, inLoop 1 p (exec 1 sched) ∧ casSucceeds p (exec 1 sched)) ∧
    (∀ sched, handOffs (exec 1 sched) ≤ loopEnd 1 ∧
        (handOffs (exec 1 sched) = loopEnd 1 → bothDone 1 (exec 1 sched))) ∧
    (∀ f, Fair f → ∃ k, bothDone 1 (exec 1 (firstTurns f k)) ∧
        ∀ more, exec 1 (firstTurns f k ++ more) = exec 1 (firstTurns f k)) :=
  handoff_terminates 1 (by decide) (by norm_num) (by norm_num) (by norm_num)

/-- C1 fails as stated at `iterations = 2^63 - 1`: there `end = 2^64 - 2`, and after the
`2^63 - 1` rounds of the round-robin schedule the secondary's `current += 2` has wrapped to
0, so the secondary is still inside the loop, no still-looping participant's
compare-and-swap succeeds, and no further turn changes the state. -/
theorem handoff_stuck_at_wraparound :
    1 ≤ 2 ^ 63 - 1 ∧ 2 ^ 63 - 1 < 2 ^ 64 ∧
    inLoop (2 ^ 63 - 1) .secondary (exec (2 ^ 63 - 1) (roundRobin (2 ^ 63 - 1))) ∧
    (∀ p, inLoop (2 ^ 63 - 1) p (exec (2 ^ 63 - 1) (roundRobin (2 ^ 63 - 1))) →
      ¬ casSucceeds p (exec (2 ^ 63 - 1) (roundRobin (2 ^ 63 - 1)))) ∧
    (∀ more, exec (2 ^ 63 - 1) (roundRobin (2 ^ 63 - 1) ++ more) =
      exec (2 ^ 63 - 1) (roundRobin (2 ^ 63 - 1))) := by
  have hend : loopEnd (2 ^ 63 - 1) = 2 ^ 64 - 2 := by norm_num [loopEnd, U64]
  have hs : exec (2 ^ 63 - 1) (roundRobin (2 ^ 63 - 1)) = stateAt (loopEnd (2 ^ 63 - 1)) := by
    rw [exec_roundRobin _ _ (by rw [hend]; norm_num), hend]
    congr 1
  refine ⟨by norm_num, by norm_num, ?_, ?_, ?_⟩
  · rw [hs, inLoop_secondary_stateAt, hend]; norm_num [U64]
  · intro p hp
    rw [hs] at hp ⊢
    cases p with
    | primary =>
      rw [inLoop_primary_stateAt, hend] at hp
      norm_num at hp
    | secondary =>
      rw [casSucceeds_secondary_stateAt _ _ (le_refl _), hend]
      norm_num
  · intro more
    rw [exec_append, hs, execFrom_stateAt_end]

/-- C2: for every `n >= 1` with `2 * n < 2^64`, in every reachable state in which both
participants have left the loop the shared counter equals `2 * n` (so it is one of
`2 * n`, `2 * n + 1`), and in every reachable state it is at most `2 * n`. -/
theorem final_counter (n : Nat) (_hn : 1 ≤ n) (h2 : 2 * n < 2 ^ 64)
    (sched : List Participant) :
    (bothDone n (exec n sched) →
      (exec n sched).target = 2 * n ∧
      ((exec n sched).target = 2 * n ∨ (exec n sched).target = 2 * n + 1)) ∧
    (exec n sched).target ≤ 2 * n := by
  have hend : loopEnd n = 2 * n := by
    unfold loopEnd U64; exact Nat.mod_eq_of_lt h2
  obtain ⟨t, ht, hs⟩ := exec_eq_stateAt n sched
  rw [hs]
  refine ⟨fun hd => ?_, ?_⟩
  · have := ((bothDone_stateAt n t ht).1 hd).1
    have ht2 : (stateAt t).target = 2 * n := by simp only [stateAt]; omega
    exact ⟨ht2, Or.inl ht2⟩
  · simp only [stateAt]; omega

/-- Witness of `final_counter`: one iteration, one round of turns. -/
theorem final_counter_witness :
    bothDone 1 (exec 1 (roundRobin 1)) ∧ (exec 1 (roundRobin 1)).target = 2 * 1 ∧
    (exec 1 (roundRobin 1)).target ≤ 2 * 1 :=
  have hd : bothDone 1 (exec 1 (roundRobin 1)) := by decide
  have h := final_counter 1 (by decide) (by norm_num) (roundRobin 1)
  ⟨hd, (h.1 hd).1, h.2⟩

/-- C3: in every execution from a reset cell the log of successful compare-and-swaps is
in lockstep 1, 2, 3, ...: its first entry is the primary writing 1; every later entry, by
participant `P` writing `v`, directly follows an entry of the other participant writing
`v - 1`; the values written are exactly `1, ..., length` in order (none skipped, none
twice); the primary writes only odd values and the secondary only even ones; and in no
reachable state do both pending compare-and-swaps succeed. It holds for every iteration
count, in particular for `n >= 1` with `2 * n < 2^64`. -/
theorem lockstep_alternation (n : Nat) (sched : List Participant) :
    (∀ P v, (exec n sched).log[0]? = some (P, v) → P = .primary ∧ v = 1) ∧
    (∀ i P v, (exec n sched).log[i + 1]? = some (P, v) →
      2 ≤ v ∧ (exec n sched).log[i]? = some (P.other, v - 1)) ∧
    (exec n sched).log.map Prod.snd = List.range' 1 (exec n sched).log.length ∧
    (∀ P v, (P, v) ∈ (exec n sched).log →
      (P = .primary → v % 2 = 1) ∧ (P = .secondary → v % 2 = 0)) ∧
    ¬ (casSucceeds .primary (exec n sched) ∧ casSucceeds .secondary (exec n sched)) := by
  obtain ⟨t, ht, hs⟩ := exec_eq_stateAt n sched
  rw [hs]
  have hlog : (stateAt t).log = lockstep t := rfl
  rw [hlog]
  refine ⟨?_, ?_, ?_, ?_, ?_⟩
  · intro P v h
    rw [lockstep_getElem?] at h
    split at h
    · simp only [Nat.zero_mod, if_true, Option.some.injEq, Prod.mk.injEq] at h
      exact ⟨h.1.symm, by omega⟩
    · exact absurd h (by simp)
  · intro i P v h
    rw [lockstep_getElem?] at h
    split at h
    · rename_i hi
      simp only [Option.some.injEq, Prod.mk.injEq] at h
      obtain ⟨hP, hv⟩ := h
      refine ⟨by omega, ?_⟩
      rw [lockstep_getElem?, if_pos (by omega)]
      subst hv hP
      rcases Nat.mod_two_eq_zero_or_one i with h0 | h0
      · have h1 : (i + 1) % 2 ≠ 0 := by omega
        simp [h0, h1, Participant.other]
      · have h1 : (i + 1) % 2 = 0 := by omega
        simp [h0, h1, Participant.other]
    · exact absurd h (by simp)
  · rw [lockstep_values, lockstep_length]
  · intro P v h
    simp only [lockstep, List.mem_map, List.mem_range, Prod.mk.injEq] at h
    obtain ⟨i, _, hP, hv⟩ := h
    subst hv
    rcases Nat.mod_two_eq_zero_or_one i with h0 | h0
    · rw [if_pos h0] at hP
      subst hP
      exact ⟨fun _ => by omega, fun h => by cases h⟩
    · rw [if_neg (by omega)] at hP
      subst hP
      exact ⟨fun h => (by cases h), fun _ => by omega⟩
  · rw [casSucceeds_primary_stateAt n t ht, casSucceeds_secondary_stateAt n t ht]
    omega

/-! ## `setCPUAffinity` and `runOneTest` -/

theorem CPU_SET_zero (cpu : Nat) (hcpu : cpu < CPU_SETSIZE) : CPU_SET cpu CPU_ZERO = {cpu} := by
  simp [CPU_SET, CPU_ZERO, hcpu]

theorem setCPUAffinity_cases (cpu : Nat) (calls : AffinityCalls) :
    setCPUAffinity cpu calls = .returns () ∨ setCPUAffinity cpu calls = .exits 1 := by
  unfold setCPUAffinity
  cases calls.setOk <;> simp only [Bool.true_eq_false, Bool.false_eq_true, if_true, if_false]
  · exact Or.inr trivial
  · cases calls.getRes with
    | none => exact Or.inr rfl
    | some m =>
      simp only []
      split
      · exact Or.inr rfl
      · exact Or.inl rfl

/-- What a returned latency tells about the trial. -/
theorem runOneTest_returns (prior : SharedData) (n cpu1 cpu2 : Nat) (env : TrialEnv)
    (sched : List Participant) (v : Rat)
    (h : runOneTest prior n cpu1 cpu2 env sched = some (.returns v)) :
    env.forkOk = true ∧ setCPUAffinity cpu1 env.parent.affinity = .returns () ∧
    setCPUAffinity cpu2 env.child.affinity = .returns () ∧
    env.waitpidOk = true ∧ env.childSignalled = false ∧ bothDone n (exec n sched) ∧
    v = stdMin (storedLatency n env.parent.t0 env.parent.t1)
          (storedLatency n env.child.t0 env.child.t1) := by
  unfold runOneTest at h
  cases hf : env.forkOk
  · simp [hf] at h
  · rcases setCPUAffinity_cases cpu1 env.parent.affinity with hp | hp
    · rcases setCPUAffinity_cases cpu2 env.child.affinity with hc | hc
      · simp only [hf, hp, hc, Bool.true_eq_false, if_false, SharedData.placementNew] at h
        by_cases h1 : inLoop n .primary (execFrom n (initState 0) sched)
        · simp [h1] at h
        · by_cases h2 : inLoop n .secondary (execFrom n (initState 0) sched)
          · cases hw : env.waitpidOk <;>
              simp [h1, h2, waitpid, hw, parentAfterLoop] at h
          · cases hw : env.waitpidOk <;> cases hs : env.childSignalled <;>
              simp [h1, h2, waitpid, hw, hs, parentAfterLoop] at h
            exact ⟨rfl, hp, hc, rfl, rfl, ⟨h1, h2⟩, h.symm⟩
      · simp only [hf, hp, hc, Bool.true_eq_false, if_false, SharedData.placementNew] at h
        split at h
        · simp at h
        · cases hw : env.waitpidOk <;> cases hs : env.childSignalled <;>
            simp [waitpid, hw, hs, parentAfterLoop] at h
    · simp [hf, hp] at h

/-- A parent that left `runOneTest` through `exit` did so with status 1. -/
theorem runOneTest_exits (prior : SharedData) (n cpu1 cpu2 : Nat) (env : TrialEnv)
    (sched : List Participant) (status : Nat)
    (h : runOneTest prior n cpu1 cpu2 env sched = some (.exits status)) : status = 1 := by
  unfold runOneTest at h
  cases hf : env.forkOk
  · simp [hf] at h; exact h.symm
  · rcases setCPUAffinity_cases cpu1 env.parent.affinity with hp | hp
    · rcases setCPUAffinity_cases cpu2 env.child.affinity with hc | hc
      · simp only [hf, hp, hc, Bool.true_eq_false, if_false, SharedData.placementNew] at h
        by_cases h1 : inLoop n .primary (execFrom n (initState 0) sched)
        · simp [h1] at h
        · by_cases h2 : inLoop n .secondary (execFrom n (initState 0) sched)
          · cases hw : env.waitpidOk <;>
              simp [h1, h2, waitpid, hw, parentAfterLoop] at h
            exact h.symm
          · cases hw : env.waitpidOk <;> cases hs : env.childSignalled <;>
              simp [h1, h2, waitpid, hw, hs, parentAfterLoop] at h <;> exact h.symm
      · simp only [hf, hp, hc, Bool.true_eq_false, if_false, SharedData.placementNew] at h
        split at h
        · simp at h
        · cases hw : env.waitpidOk <;> cases hs : env.childSignalled <;>
            simp [waitpid, hw, hs, parentAfterLoop] at h <;> exact h.symm
    · simp [hf, hp] at h; exact h.symm

theorem stdMin_eq_min (a b : Rat) : stdMin a b = min a b := by
  unfold stdMin
  split
  · rename_i h; exact (min_eq_right (le_of_lt h)).symm
  · rename_i h; exact (min_eq_left (not_lt.mp h)).symm

/-- The normal trial of ten iterations under the round-robin schedule. -/
theorem runOneTest_quietTrial (prior : SharedData) (ns1 ns2 : Int) :
    runOneTest prior 10 0 1 (quietTrial ns1 ns2) (roundRobin 10) =
      some (.returns (stdMin ((ns1 : Rat) / 10) ((ns2 : Rat) / 10))) := by
  have hs : execFrom 10 (initState 0) (roundRobin 10) = stateAt 20 :=
    exec_roundRobin 10 10 (by decide)
  have h1 : ¬ inLoop 10 .primary (stateAt 20) := by decide
  have h2 : ¬ inLoop 10 .secondary (stateAt 20) := by decide
  have ha : setCPUAffinity 0 { setOk := true, getRes := some {0} } = .returns () := by decide
  have hb : setCPUAffinity 1 { setOk := true, getRes := some {1} } = .returns () := by decide
  simp only [runOneTest, quietTrial, goodProcess, ha, hb, SharedData.placementNew, hs, h1, h2,
    waitpid, parentAfterLoop]
  norm_num [storedLatency, elapsed]

/-- C4: when a trial completes normally (`runOneTest` returns `v`), `v` is the minimum of
the latency the primary stored in `result1` and the latency the secondary stored in
`result2` during this trial; the result does not depend on what the shared block held on
entry, so it is never a stale slot value; and `std::min` of 0.5 and 0.7, in either order,
is 0.5. -/
theorem latency_reduction (prior : SharedData) (n cpu1 cpu2 : Nat) (env : TrialEnv)
    (sched : List Participant) (v : Rat) (_hn : 1 ≤ n)
    (h : runOneTest prior n cpu1 cpu2 env sched = some (.returns v)) :
    v = min (storedLatency n env.parent.t0 env.parent.t1)
          (storedLatency n env.child.t0 env.child.t1) ∧
    (∀ stale, runOneTest stale n cpu1 cpu2 env sched = some (.returns v)) ∧
    stdMin (1 / 2 : Rat) (7 / 10) = 1 / 2 ∧ stdMin (7 / 10 : Rat) (1 / 2) = 1 / 2 := by
  refine ⟨?_, fun stale => ?_, by norm_num [stdMin], by norm_num [stdMin]⟩
  · rw [← stdMin_eq_min]
    exact (runOneTest_returns prior n cpu1 cpu2 env sched v h).2.2.2.2.2.2
  · rw [← h]; rfl

/-- Witness of `latency_reduction`: ten iterations, the parent measures 5 ns (0.5 per
iteration), the child 7 ns (0.7), the block holds stale values on entry; the trial
returns 0.5, and so does the trial with the two measurements exchanged. -/
theorem latency_reduction_witness :
    storedLatency 10 (quietTrial 5 7).parent.t0 (quietTrial 5 7).parent.t1 = 1 / 2 ∧
    storedLatency 10 (quietTrial 5 7).child.t0 (quietTrial 5 7).child.t1 = 7 / 10 ∧
    runOneTest { target := 20, result1 := 3, result2 := 4 } 10 0 1 (quietTrial 5 7)
        (roundRobin 10) = some (.returns (1 / 2)) ∧
    runOneTest { target := 20, result1 := 3, result2 := 4 } 10 0 1 (quietTrial 7 5)
        (roundRobin 10) = some (.returns (1 / 2)) ∧
    (1 / 2 : Rat) = min (storedLatency 10 (quietTrial 5 7).parent.t0 (quietTrial 5 7).parent.t1)
          (storedLatency 10 (quietTrial 5 7).child.t0 (quietTrial 5 7).child.t1) :=
  have h : runOneTest { target := 20, result1 := 3, result2 := 4 } 10 0 1 (quietTrial 5 7)
      (roundRobin 10) = some (.returns (1 / 2)) := by
    rw [runOneTest_quietTrial]; norm_num [stdMin]
  have h2 : runOneTest { target := 20, result1 := 3, result2 := 4 } 10 0 1 (quietTrial 7 5)
      (roundRobin 10) = some (.returns (1 / 2)) := by
    rw [runOneTest_quietTrial]; norm_num [stdMin]
  ⟨by norm_num [storedLatency, elapsed, quietTrial, goodProcess],
    by norm_num [storedLatency, elapsed, quietTrial, goodProcess], h, h2,
    (latency_reduction _ 10 0 1 (quietTrial 5 7) (roundRobin 10) (1 / 2) (by decide) h).1⟩

/-- With only the primary taking turns, the counter never gets past 1. -/
theorem execFrom_primary_only (n : Nat) (he : 3 ≤ loopEnd n) (l : List Participant)
    (hl : ∀ p ∈ l, p = Participant.primary) :
    ∀ t, t ≤ 1 → ∃ t2, t2 ≤ 1 ∧ execFrom n (stateAt t) l = stateAt t2 := by
  induction l with
  | nil => intro t ht; exact ⟨t, ht, rfl⟩
  | cons p rest ih =>
    intro t ht
    have hp : p = .primary := hl p (List.mem_cons_self _ _)
    have hrest : ∀ q ∈ rest, q = Participant.primary :=
      fun q hq => hl q (List.mem_cons_of_mem _ hq)
    rw [execFrom_cons, hp, step_primary_stateAt n t (by omega)]
    split
    · exact ih hrest (t + 1) (by omega)
    · exact ih hrest t ht

/-- A parent whose child never entered the loop never leaves `runOneTest`, whatever the
schedule, as soon as `iterations` asks for a second write by the primary. -/
theorem runOneTest_child_never_started (prior : SharedData) (n cpu1 cpu2 : Nat)
    (env : TrialEnv) (sched : List Participant) (he : 3 ≤ loopEnd n)
    (hf : env.forkOk = true)
    (hp : setCPUAffinity cpu1 env.parent.affinity = .returns ())
    (hc : setCPUAffinity cpu2 env.child.affinity = .exits 1) :
    runOneTest prior n cpu1 cpu2 env sched = none := by
  obtain ⟨t2, ht2, hs⟩ := execFrom_primary_only n he
    (sched.filter (fun p => p = .primary)) (by simp) 0 (by omega)
  rw [← initState_eq_stateAt] at hs
  have hin : inLoop n .primary (stateAt t2) := by
    rw [inLoop_primary_stateAt]; omega
  simp only [runOneTest, hf, hp, hc, SharedData.placementNew, hs, hin, if_true,
    Bool.true_eq_false, if_false]

/-- A parent whose own `setCPUAffinity` exits terminates with status 1. -/
theorem runOneTest_parent_unbound (prior : SharedData) (n cpu1 cpu2 : Nat)
    (env : TrialEnv) (sched : List Participant) (hf : env.forkOk = true)
    (hp : setCPUAffinity cpu1 env.parent.affinity = .exits 1) :
    runOneTest prior n cpu1 cpu2 env sched = some (.exits 1) := by
  simp only [runOneTest, hf, hp, Bool.true_eq_false, if_false]

/-- C5, the code at the failing input: `Iterations = 10,000,000`, CPUs 0 and 1, the child's
`sched_getaffinity` reads back `{0, 1}` instead of `{1}`. The child exits with status 1
before its first compare-and-swap, and the parent, under every schedule, is still inside
`runOneTest` (spinning in its loop): it neither exits nor returns. When the same mismatch
hits the parent, the process exits with status 1. -/
theorem child_affinity_mismatch_hangs :
    setCPUAffinity 1 childMismatchTrial.child.affinity = .exits 1 ∧
    (∀ prior sched, runOneTest prior Iterations 0 1 childMismatchTrial sched = none) ∧
    (∀ prior sched,
      runOneTest prior Iterations 0 1 parentMismatchTrial sched = some (.exits 1)) := by
  have hc : setCPUAffinity 1 childMismatchTrial.child.affinity = .exits 1 := by decide
  refine ⟨hc, fun prior sched => ?_, fun prior sched => ?_⟩
  · exact runOneTest_child_never_started prior Iterations 0 1 childMismatchTrial sched
      (by norm_num [loopEnd, Iterations, U64]) rfl (by decide) hc
  · exact runOneTest_parent_unbound prior Iterations 0 1 parentMismatchTrial sched rfl
      (by decide)

/-- After a successful `fork`, with both processes bound and both loops finished, the parent
returns the `std::min` of the two latencies of this trial when `waitpid` succeeds and the
child was not terminated by a signal (it exited with code 0), and exits with status 1
otherwise. -/
theorem runOneTest_both_finished (prior : SharedData) (n cpu1 cpu2 : Nat) (env : TrialEnv)
    (sched : List Participant) (hf : env.forkOk = true)
    (hp : setCPUAffinity cpu1 env.parent.affinity = .returns ())
    (hc : setCPUAffinity cpu2 env.child.affinity = .returns ())
    (hd : bothDone n (exec n sched)) :
    runOneTest prior n cpu1 cpu2 env sched =
      some (if env.waitpidOk = true ∧ env.childSignalled = false then
          .returns (stdMin (storedLatency n env.parent.t0 env.parent.t1)
            (storedLatency n env.child.t0 env.child.t1))
        else .exits 1) := by
  have h1 : ¬ inLoop n .primary (execFrom n (initState 0) sched) := hd.1
  have h2 : ¬ inLoop n .secondary (execFrom n (initState 0) sched) := hd.2
  cases hw : env.waitpidOk <;> cases hs : env.childSignalled <;>
    simp [runOneTest, hf, hp, hc, SharedData.placementNew, h1, h2, waitpid, hw, hs,
      parentAfterLoop]

/-- After a successful `fork`, when the child exited with status 1 in `setCPUAffinity` and
the parent's loop has finished, the parent exits with status 1 whatever `waitpid`
reports. -/
theorem runOneTest_child_failed (prior : SharedData) (n cpu1 cpu2 : Nat) (env : TrialEnv)
    (sched : List Participant) (hf : env.forkOk = true)
    (hp : setCPUAffinity cpu1 env.parent.affinity = .returns ())
    (hc : setCPUAffinity cpu2 env.child.affinity = .exits 1)
    (h1 : ¬ inLoop n .primary
      (execFrom n (initState 0) (sched.filter (fun p => p = .primary)))) :
    runOneTest prior n cpu1 cpu2 env sched = some (.exits 1) := by
  cases hw : env.waitpidOk <;> cases hs : env.childSignalled <;>
    simp [runOneTest, hf, hp, hc, SharedData.placementNew, h1, waitpid, hw, hs,
      parentAfterLoop]

/-- After a successful `fork`, when the parent's loop has finished and the child is still
inside its loop, a failing `waitpid` makes the parent exit with status 1 and a working one
blocks: no latency is returned. -/
theorem runOneTest_child_running (prior : SharedData) (n cpu1 cpu2 : Nat) (env : TrialEnv)
    (sched : List Participant) (hf : env.forkOk = true)
    (hp : setCPUAffinity cpu1 env.parent.affinity = .returns ())
    (hc : setCPUAffinity cpu2 env.child.affinity = .returns ())
    (h1 : ¬ inLoop n .primary (exec n sched)) (h2 : inLoop n .secondary (exec n sched)) :
    runOneTest prior n cpu1 cpu2 env sched =
      if env.waitpidOk = true then none else some (.exits 1) := by
  have h1a : ¬ inLoop n .primary (execFrom n (initState 0) sched) := h1
  have h2a : inLoop n .secondary (execFrom n (initState 0) sched) := h2
  cases hw : env.waitpidOk <;>
    simp [runOneTest, hf, hp, hc, SharedData.placementNew, h1a, h2a, waitpid, hw,
      parentAfterLoop]

/-- C6: with the outcomes of `fork` and `waitpid` as inputs. (1) If `fork` fails,
`runOneTest` exits with status 1 whatever the schedule (no measurement takes place).
(2) The parent's code after its loop returns a latency, the `std::min` of the two slots,
exactly when `waitpid` succeeded and reported a normal exit with code 0, and in every other
case (the call failed, abnormal termination, non-zero code) exits with status 1.
(3) Every way out of `runOneTest` is either `exit(1)` or a returned latency, the latter
only if `waitpid` succeeded and the child was bound, finished its loop and was not
terminated by a signal. (4) Conversely, after a successful `fork`, with both processes bound
and both loops finished (the child exits with code 0), `runOneTest` returns the `std::min`
of the two latencies of this trial if `waitpid` succeeds and reports a normal exit, and
exits with status 1 if `waitpid` fails or reports abnormal termination. (5) When the
parent's loop has finished and the child exited with the non-zero code 1, `runOneTest`
exits with status 1. (6) When the parent's loop has finished and the child is still
running, `runOneTest` exits with status 1 if `waitpid` fails and otherwise has no result
yet. -/
theorem secondary_failure_semantics :
    (∀ prior n cpu1 cpu2 env sched, env.forkOk = false →
      runOneTest prior n cpu1 cpu2 env sched = some (.exits 1)) ∧
    (∀ w sd, (parentAfterLoop w sd = .returns (stdMin sd.result1 sd.result2) ↔
        w = .exited 0) ∧
      ((∃ v, parentAfterLoop w sd = .returns v) ↔ w = .exited 0) ∧
      (w ≠ .exited 0 → parentAfterLoop w sd = .exits 1)) ∧
    (∀ prior n cpu1 cpu2 env sched out, runOneTest prior n cpu1 cpu2 env sched = some out →
      out = .exits 1 ∨
      (out = .returns (stdMin (storedLatency n env.parent.t0 env.parent.t1)
          (storedLatency n env.child.t0 env.child.t1)) ∧
        env.waitpidOk = true ∧ env.childSignalled = false ∧
        setCPUAffinity cpu2 env.child.affinity = .returns () ∧
        bothDone n (exec n sched))) ∧
    (∀ prior n cpu1 cpu2 env sched, env.forkOk = true →
      setCPUAffinity cpu1 env.parent.affinity = .returns () →
      setCPUAffinity cpu2 env.child.affinity = .returns () →
      bothDone n (exec n sched) →
      (env.waitpidOk = true → env.childSignalled = false →
        runOneTest prior n cpu1 cpu2 env sched =
          some (.returns (stdMin (storedLatency n env.parent.t0 env.parent.t1)
            (storedLatency n env.child.t0 env.child.t1)))) ∧
      (env.waitpidOk = false → runOneTest prior n cpu1 cpu2 env sched = some (.exits 1)) ∧
      (env.childSignalled = true →
        runOneTest prior n cpu1 cpu2 env sched = some (.exits 1)) ∧
      ((∃ v, runOneTest prior n cpu1 cpu2 env sched = some (.returns v)) ↔
        env.waitpidOk = true ∧ env.childSignalled = false)) ∧
    (∀ prior n cpu1 cpu2 env sched, env.forkOk = true →
      setCPUAffinity cpu1 env.parent.affinity = .returns () →
      setCPUAffinity cpu2 env.child.affinity = .exits 1 →
      ¬ inLoop n .primary (execFrom n (initState 0) (sched.filter (fun p => p = .primary))) →
      runOneTest prior n cpu1 cpu2 env sched = some (.exits 1)) ∧
    (∀ prior n cpu1 cpu2 env sched, env.forkOk = true →
      setCPUAffinity cpu1 env.parent.affinity = .returns () →
      setCPUAffinity cpu2 env.child.affinity = .returns () →
      ¬ inLoop n .primary (exec n sched) → inLoop n .secondary (exec n sched) →
      runOneTest prior n cpu1 cpu2 env sched =
        if env.waitpidOk = true then none else some (.exits 1)) := by
  refine ⟨?_, ?_, ?_, ?_, ?_, ?_⟩
  · intro prior n cpu1 cpu2 env sched hf
    simp only [runOneTest, hf, if_true]
  · intro w sd
    cases w with
    | failed => simp [parentAfterLoop]
    | signalled => simp [parentAfterLoop]
    | exited code =>
      by_cases hcode : code = 0
      · simp [parentAfterLoop, hcode]
      · simp [parentAfterLoop, hcode]
  · intro prior n cpu1 cpu2 env sched out h
    cases out with
    | exits status =>
      left
      rw [runOneTest_exits prior n cpu1 cpu2 env sched status h]
    | returns v =>
      right
      obtain ⟨_, _, h3, h4, h5, h6, h7⟩ := runOneTest_returns prior n cpu1 cpu2 env sched v h
      exact ⟨by rw [h7], h4, h5, h3, h6⟩
  · intro prior n cpu1 cpu2 env sched hf hp hc hd
    have h := runOneTest_both_finished prior n cpu1 cpu2 env sched hf hp hc hd
    refine ⟨fun hw hs => ?_, fun hw => ?_, fun hs => ?_, ?_⟩
    · rw [h, if_pos ⟨hw, hs⟩]
    · rw [h, if_neg (by simp [hw])]
    · rw [h, if_neg (by simp [hs])]
    · constructor
      · rintro ⟨v, hv⟩
        obtain ⟨_, _, _, h4, h5, _, _⟩ := runOneTest_returns prior n cpu1 cpu2 env sched v hv
        exact ⟨h4, h5⟩
      · rintro ⟨hw, hs⟩
        exact ⟨_, by rw [h, if_pos ⟨hw, hs⟩]⟩
  · intro prior n cpu1 cpu2 env sched hf hp hc h1
    exact runOneTest_child_failed prior n cpu1 cpu2 env sched hf hp hc h1
  · intro prior n cpu1 cpu2 env sched hf hp hc h1 h2
    exact runOneTest_child_running prior n cpu1 cpu2 env sched hf hp hc h1 h2

/-- Witness of `secondary_failure_semantics` on CPUs 0 and 1 with ten iterations under the
round-robin schedule (the parent measures 5 ns, the child 7 ns): the trial returns 0.5
when every call succeeds, and exits with status 1 when `fork` fails, when `waitpid` fails,
and when the child is reported terminated by a signal; with one iteration and a child that
exited with status 1 in `setCPUAffinity`, the parent exits with status 1 after its single
turn. -/
theorem secondary_failure_semantics_witness :
    runOneTest { target := 20, result1 := 3, result2 := 4 } 10 0 1 (quietTrial 5 7)
      (roundRobin 10) = some (.returns (1 / 2)) ∧
    runOneTest { target := 20, result1 := 3, result2 := 4 } 10 0 1
      { quietTrial 5 7 with forkOk := false } (roundRobin 10) = some (.exits 1) ∧
    runOneTest { target := 20, result1 := 3, result2 := 4 } 10 0 1
      { quietTrial 5 7 with waitpidOk := false } (roundRobin 10) = some (.exits 1) ∧
    runOneTest { target := 20, result1 := 3, result2 := 4 } 10 0 1
      { quietTrial 5 7 with childSignalled := true } (roundRobin 10) = some (.exits 1) ∧
    runOneTest { target := 20, result1 := 3, result2 := 4 } 1 0 1 childMismatchTrial
      [.primary] = some (.exits 1) :=
  have hd : bothDone 10 (exec 10 (roundRobin 10)) := by
    rw [exec_roundRobin 10 10 (by decide)]; decide
  have hstored : stdMin (storedLatency 10 (quietTrial 5 7).parent.t0 (quietTrial 5 7).parent.t1)
      (storedLatency 10 (quietTrial 5 7).child.t0 (quietTrial 5 7).child.t1) = 1 / 2 := by
    norm_num [stdMin, storedLatency, elapsed, quietTrial, goodProcess]
  have h := secondary_failure_semantics
  ⟨by
      rw [← hstored]
      exact (h.2.2.2.1 _ 10 0 1 (quietTrial 5 7) (roundRobin 10) rfl (by decide) (by decide)
        hd).1 rfl rfl,
    h.1 _ 10 0 1 { quietTrial 5 7 with forkOk := false } (roundRobin 10) rfl,
    (h.2.2.2.1 _ 10 0 1 { quietTrial 5 7 with waitpidOk := false } (roundRobin 10) rfl
      (by decide) (by decide) hd).2.1 rfl,
    (h.2.2.2.1 _ 10 0 1 { quietTrial 5 7 with childSignalled := true } (roundRobin 10) rfl
      (by decide) (by decide) hd).2.2.1 rfl,
    h.2.2.2.2.1 _ 1 0 1 childMismatchTrial [.primary] rfl (by decide) (by decide)
      (by decide)⟩

/-- C7: for every `cpu` below `CPU_SETSIZE`, `setCPUAffinity(cpu)` returns exactly when
`sched_setaffinity` succeeds, `sched_getaffinity` succeeds and the mask read back is the
requested mask `{cpu}`; when the bind call fails, when the read-back call fails, and when
the masks differ, it exits with status 1 instead of returning. -/
theorem setCPUAffinity_contract (cpu : Nat) (hcpu : cpu < CPU_SETSIZE)
    (calls : AffinityCalls) :
    CPU_SET cpu CPU_ZERO = {cpu} ∧
    (setCPUAffinity cpu calls = .returns () ↔
      calls.setOk = true ∧ calls.getRes = some {cpu}) ∧
    (calls.setOk = false → setCPUAffinity cpu calls = .exits 1) ∧
    (calls.setOk = true → calls.getRes = none → setCPUAffinity cpu calls = .exits 1) ∧
    (∀ setOut, calls.setOk = true → calls.getRes = some setOut → setOut ≠ {cpu} →
      setCPUAffinity cpu calls = .exits 1) := by
  have hset := CPU_SET_zero cpu hcpu
  refine ⟨hset, ?_, ?_, ?_, ?_⟩
  · unfold setCPUAffinity
    rw [hset]
    cases calls.setOk
    · simp
    · cases calls.getRes with
      | none => simp
      | some m =>
        by_cases hm : ({cpu} : CpuSet) = m
        · simp [hm]
        · have hm2 : ¬ m = {cpu} := fun h => hm h.symm
          simp [hm, hm2]
  · intro h
    simp [setCPUAffinity, h]
  · intro h1 h2
    simp [setCPUAffinity, h1, h2]
  · intro setOut h1 h2 h3
    have h4 : ¬ ({cpu} : CpuSet) = setOut := fun h => h3 h.symm
    simp [setCPUAffinity, h1, h2, hset, h4]

/-- Witness of `setCPUAffinity_contract`: CPU 3, both calls succeed, the mask read back is
`{3}`. -/
theorem setCPUAffinity_contract_witness :
    3 < CPU_SETSIZE ∧
    setCPUAffinity 3 { setOk := true, getRes := some {3} } = .returns () ∧
    setCPUAffinity 3 { setOk := true, getRes := some {3, 4} } = .exits 1 :=
  have h := setCPUAffinity_contract 3 (by decide) { setOk := true, getRes := some {3} }
  have h2 := setCPUAffinity_contract 3 (by decide) { setOk := true, getRes := some {3, 4} }
  ⟨by decide, h.2.1.2 ⟨rfl, rfl⟩, h2.2.2.2.2 {3, 4} rfl rfl (by decide)⟩

/-! ## Result unit and cell reset -/

/-- In a completed trial the number of hand-offs is `end`. -/
theorem handOffs_of_bothDone (n : Nat) (sched : List Participant)
    (hd : bothDone n (exec n sched)) : handOffs (exec n sched) = loopEnd n := by
  obtain ⟨t, ht, hs⟩ := exec_eq_stateAt n sched
  rw [hs] at hd ⊢
  have := ((bothDone_stateAt n t ht).1 hd).1
  simp [handOffs, stateAt, lockstep_length, this]

theorem elapsed_eq (t0 t1 : Timespec) : elapsed t0 t1 = 1000000000 * elapsedSeconds t0 t1 := by
  simp only [elapsed, elapsedSeconds]
  ring

/-- C9 (as amended): the latency a participant stores is in nanoseconds per iteration, an
iteration being a round trip of two hand-offs: for every `n >= 1` with `2 * n < 2^64` and
all clock readings, the stored value is the elapsed time in nanoseconds divided by
`iterations`; a completed trial performs `2 * iterations` hand-offs; so the stored value is
`2 * 10^9` times the elapsed seconds per hand-off. -/
theorem latency_unit (n : Nat) (hn : 1 ≤ n) (h2 : 2 * n < 2 ^ 64) (t0 t1 : Timespec)
    (sched : List Participant) (hd : bothDone n (exec n sched)) :
    storedLatency n t0 t1 = elapsed t0 t1 / (n : Rat) ∧
    elapsed t0 t1 = 1000000000 * elapsedSeconds t0 t1 ∧
    handOffs (exec n sched) = 2 * n ∧
    storedLatency n t0 t1 =
      2 * 1000000000 * (elapsedSeconds t0 t1 / (handOffs (exec n sched) : Rat)) := by
  have hend : loopEnd n = 2 * n := by
    unfold loopEnd U64; exact Nat.mod_eq_of_lt h2
  have hh : handOffs (exec n sched) = 2 * n := by
    rw [handOffs_of_bothDone n sched hd, hend]
  refine ⟨rfl, elapsed_eq t0 t1, hh, ?_⟩
  have hn0 : (n : Rat) ≠ 0 := by
    have : (0 : Rat) < (n : Rat) := by exact_mod_cast hn
    exact ne_of_gt this
  rw [hh, storedLatency, elapsed_eq]
  push_cast
  field_simp
  ring

/-- Witness of `latency_unit`: one iteration, one round of turns, one second elapsed. -/
theorem latency_unit_witness :
    bothDone 1 (exec 1 (roundRobin 1)) ∧
    handOffs (exec 1 (roundRobin 1)) = 2 * 1 ∧
    storedLatency 1 { tv_sec := 0, tv_nsec := 0 } { tv_sec := 1, tv_nsec := 0 } =
      2 * 1000000000 *
        (elapsedSeconds { tv_sec := 0, tv_nsec := 0 } { tv_sec := 1, tv_nsec := 0 } /
          (handOffs (exec 1 (roundRobin 1)) : Rat)) :=
  have hd : bothDone 1 (exec 1 (roundRobin 1)) := by decide
  have h := latency_unit 1 (by decide) (by norm_num) { tv_sec := 0, tv_nsec := 0 }
    { tv_sec := 1, tv_nsec := 0 } (roundRobin 1) hd
  ⟨hd, h.2.2.1, h.2.2.2⟩

/-- C9 fails as stated: with one iteration and clock readings one second apart, the
completed trial has performed 2 hand-offs, so the elapsed seconds per hand-off are 1/2,
but the stored value is 1000000000. -/
theorem latency_unit_mismatch :
    bothDone 1 (exec 1 (roundRobin 1)) ∧
    handOffs (exec 1 (roundRobin 1)) = 2 ∧
    elapsedSeconds { tv_sec := 0, tv_nsec := 0 } { tv_sec := 1, tv_nsec := 0 } /
      (handOffs (exec 1 (roundRobin 1)) : Rat) = 1 / 2 ∧
    storedLatency 1 { tv_sec := 0, tv_nsec := 0 } { tv_sec := 1, tv_nsec := 0 } = 1000000000 ∧
    storedLatency 1 { tv_sec := 0, tv_nsec := 0 } { tv_sec := 1, tv_nsec := 0 } ≠
      elapsedSeconds { tv_sec := 0, tv_nsec := 0 } { tv_sec := 1, tv_nsec := 0 } /
        (handOffs (exec 1 (roundRobin 1)) : Rat) := by
  have hh : handOffs (exec 1 (roundRobin 1)) = 2 := by decide
  refine ⟨by decide, hh, ?_, ?_, ?_⟩
  · rw [hh]; norm_num [elapsedSeconds]
  · norm_num [storedLatency, elapsed]
  · rw [hh]; norm_num [storedLatency, elapsed, elapsedSeconds]

/-- C10: whatever the shared block held on entry (for instance the state a previous trial
left: `target = 2 * Iterations` and two non-zero results), the placement-new at the start
of `runOneTest` leaves `target = 0`, `result1 = 0.0`, `result2 = 0.0`; the hand-off protocol
therefore starts from the state of a fresh cell, and the whole trial runs as it would on
a zeroed block. -/
theorem cell_reset (prior : SharedData) :
    SharedData.placementNew prior = { target := 0, result1 := 0, result2 := 0 } ∧
    SharedData.placementNew { target := 2 * Iterations, result1 := 45, result2 := 47 } =
      { target := 0, result1 := 0, result2 := 0 } ∧
    initState (SharedData.placementNew prior).target = stateAt 0 ∧
    (∀ n cpu1 cpu2 env sched,
      runOneTest prior n cpu1 cpu2 env sched =
        runOneTest { target := 0, result1 := 0, result2 := 0 } n cpu1 cpu2 env sched) :=
  ⟨rfl, rfl, initState_eq_stateAt, fun _ _ _ _ _ => rfl⟩

/-! ## The matrix driver -/

/-- The inner loop from column `j` appends the remaining cells of row `i`, visits the
remaining columns in order and calls `runOneTest` for each of them other than `i`. -/
theorem innerLoop_spec (run : Nat → Nat → Nat → Rat) (N i : Nat) :
    ∀ d j st, j + d = N →
      innerLoop run N i j st =
        { rows := st.rows
          line := st.line ++
            (List.range' j d).map (fun j => if i ≠ j then run Iterations i j else 0)
          visited := st.visited ++ (List.range' j d).map (fun j => (i, j))
          calls := st.calls ++
            ((List.range' j d).filter (fun j => i ≠ j)).map (fun j => (Iterations, i, j)) } := by
  intro d
  induction d with
  | zero =>
    intro j st hj
    rw [innerLoop, if_neg (by omega)]
    simp
  | succ d ih =>
    intro j st hj
    rw [innerLoop, if_pos (by omega)]
    simp only []
    rw [ih (j + 1) _ (by omega)]
    by_cases hij : i = j
    · simp [List.range'_succ, hij]
    · simp [List.range'_succ, hij]

/-- The outer loop from row `i` appends the remaining rows. -/
theorem outerLoop_spec (run : Nat → Nat → Nat → Rat) (N : Nat) :
    ∀ d i st, i + d = N → st.line = [] →
      outerLoop run N i st =
        { rows := st.rows ++ (List.range' i d).map (fun i =>
            (List.range N).map (fun j => if i ≠ j then run Iterations i j else 0))
          line := []
          visited := st.visited ++
            (List.range' i d).flatMap (fun i => (List.range N).map (fun j => (i, j)))
          calls := st.calls ++
            (List.range' i d).flatMap (fun i =>
              ((List.range N).filter (fun j => i ≠ j)).map (fun j => (Iterations, i, j))) } := by
  intro d
  induction d with
  | zero =>
    intro i st hi hline
    rw [outerLoop, if_neg (by omega)]
    cases st
    simp at hline ⊢
    exact hline
  | succ d ih =>
    intro i st hi hline
    rw [outerLoop, if_pos (by omega)]
    simp only []
    rw [ih (i + 1) _ (by omega) rfl, innerLoop_spec run N i N 0 st (by omega)]
    simp [List.range'_succ, hline, List.range_eq_range']

theorem mainLoop_spec (run : Nat → Nat → Nat → Rat) (N : Nat) :
    mainLoop run N =
      { rows := (List.range N).map (fun i =>
          (List.range N).map (fun j => if i ≠ j then run Iterations i j else 0))
        line := []
        visited := (List.range N).flatMap (fun i => (List.range N).map (fun j => (i, j)))
        calls := (List.range N).flatMap (fun i =>
          ((List.range N).filter (fun j => i ≠ j)).map (fun j => (Iterations, i, j))) } := by
  rw [mainLoop, outerLoop_spec run N N 0 _ (by omega) rfl]
  simp [List.range_eq_range']

/-- A row of `N` columns has `N - 1` columns off the diagonal. -/
theorem offDiagonal_length (N i : Nat) :
    ((List.range N).filter (fun j => i ≠ j)).length = if i < N then N - 1 else N := by
  induction N with
  | zero => simp
  | succ N ih =>
    rw [List.range_succ, List.filter_append, List.length_append, ih]
    by_cases hi : i = N
    · subst hi; simp
    · have : decide (i ≠ N) = true := by simpa using hi
      simp only [List.filter_cons, List.filter_nil, this, if_true, List.length_singleton]
      split <;> split <;> omega

theorem calls_length (N : Nat) :
    ∀ M, M ≤ N →
      ((List.range M).flatMap (fun i =>
        ((List.range N).filter (fun j => i ≠ j)).map (fun j => (Iterations, i, j)))).length =
      M * (N - 1) := by
  intro M
  induction M with
  | zero => intro _; simp
  | succ M ih =>
    intro hM
    rw [List.range_succ, List.flatMap_append, List.length_append, ih (by omega)]
    simp only [List.flatMap_cons, List.flatMap_nil, List.append_nil, List.length_map]
    rw [offDiagonal_length, if_pos (by omega)]
    ring

theorem calls_nodup (N : Nat) :
    ((List.range N).flatMap (fun i =>
      ((List.range N).filter (fun j => i ≠ j)).map (fun j => (Iterations, i, j)))).Nodup := by
  rw [List.nodup_flatMap]
  constructor
  · intro i _
    refine List.Nodup.map ?_ ((List.nodup_range N).filter _)
    intro a b hab
    simpa using hab
  · refine List.Pairwise.imp ?_ (List.nodup_range N)
    intro a b hab
    simp only [Function.onFun]
    intro x hx hy
    simp only [List.mem_map, List.mem_filter] at hx hy
    obtain ⟨_, _, rfl⟩ := hx
    obtain ⟨_, _, h⟩ := hy
    simp only [Prod.mk.injEq] at h
    exact hab h.2.1.symm

/-- C8: for every CPU count `N`, with `run` giving the value each trial returns, the loops
of `main` visit all `N * N` ordered pairs in row-major order and emit `N` lines of `N`
cells; cell `(i, i)` is 0 and cell `(i, j)`, `i ≠ j`, is the value returned by
`runOneTest(fd, data, Iterations, i, j)`; the calls of `runOneTest` are, in order, exactly
the off-diagonal pairs in row-major order with iteration count `Iterations`: there are
`N * (N - 1)` of them, none has `cpu1 = cpu2`, and each off-diagonal pair is called exactly
once; for `N = 4` that is 12 calls and 16 cells. -/
theorem matrix_driver (run : Nat → Nat → Nat → Rat) (N : Nat) :
    (mainLoop run N).visited =
      (List.range N).flatMap (fun i => (List.range N).map (fun j => (i, j))) ∧
    (mainLoop run N).visited.length = N * N ∧
    (mainLoop run N).line = [] ∧
    (mainLoop run N).rows.length = N ∧
    (∀ row ∈ (mainLoop run N).rows, row.length = N) ∧
    (∀ i, i < N → cell (mainLoop run N) i i = some 0) ∧
    (∀ i j, i < N → j < N → i ≠ j →
      cell (mainLoop run N) i j = some (run Iterations i j)) ∧
    (mainLoop run N).calls =
      (List.range N).flatMap (fun i =>
        ((List.range N).filter (fun j => i ≠ j)).map (fun j => (Iterations, i, j))) ∧
    (mainLoop run N).calls.length = N * (N - 1) ∧
    (∀ c ∈ (mainLoop run N).calls, c.1 = Iterations ∧ c.2.1 ≠ c.2.2) ∧
    (∀ i j, i < N → j < N → i ≠ j → (mainLoop run N).calls.count (Iterations, i, j) = 1) ∧
    (mainLoop run 4).calls.length = 12 ∧
    ((mainLoop run 4).rows.map List.length) = [4, 4, 4, 4] := by
  have hcell : ∀ i j, i < N → j < N →
      cell (mainLoop run N) i j = some (if i ≠ j then run Iterations i j else 0) := by
    intro i j hi hj
    rw [mainLoop_spec]
    simp [cell, List.getElem?_range hi, List.getElem?_range hj]
  refine ⟨by rw [mainLoop_spec], ?_, by rw [mainLoop_spec], ?_, ?_, ?_, ?_,
    by rw [mainLoop_spec], ?_, ?_, ?_, ?_, ?_⟩
  · rw [mainLoop_spec]
    simp [Function.comp_def]
  · rw [mainLoop_spec]; simp
  · rw [mainLoop_spec]
    intro row hrow
    simp only [List.mem_map] at hrow
    obtain ⟨_, _, rfl⟩ := hrow
    simp
  · intro i hi
    rw [hcell i i hi hi]; simp
  · intro i j hi hj hij
    rw [hcell i j hi hj]; simp [hij]
  · rw [mainLoop_spec]
    exact calls_length N N (le_refl N)
  · rw [mainLoop_spec]
    intro c hc
    simp only [List.mem_flatMap, List.mem_map, List.mem_filter, List.mem_range] at hc
    obtain ⟨i, _, j, ⟨_, hij⟩, rfl⟩ := hc
    exact ⟨rfl, by simpa using hij⟩
  · intro i j hi hj hij
    rw [mainLoop_spec]
    have hmem : (Iterations, i, j) ∈ (List.range N).flatMap (fun i =>
        ((List.range N).filter (fun j => i ≠ j)).map (fun j => (Iterations, i, j))) := by
      simp only [List.mem_flatMap, List.mem_map, List.mem_filter, List.mem_range]
      exact ⟨i, hi, j, ⟨hj, by simpa using hij⟩, rfl⟩
    have hcount := List.count_eq_one_of_mem (calls_nodup N) hmem
    rw [← hcount]
    simp only [List.count]
    congr 1
    funext c
    obtain ⟨c1, c2, c3⟩ := c
    simp [BEq.beq, Bool.decide_and]
  · rw [mainLoop_spec]
    exact calls_length 4 4 (le_refl 4)
  · rw [mainLoop_spec]
    simp [List.range_succ]

end Iclbench
